import Mathlib

/-!
Verification of the `meetingcpp2015` code snippets: the `static_if`
compile-time branching construct and the "meaningful cast" wrappers
(`to_num`, `from_enum`, `to_enum`, hierarchy casts).

The C++ sources are shallowly embedded:
* the `static_if` builder (1_StaticIf, `impl::static_if_impl`,
  `impl::static_if_result`) becomes an inductive state `SIf` with the
  `then`/`else_if`/`else_` transitions read off the specializations;
* integral C++ types become `IntType` (signedness + bit width); machine
  conversion (`static_cast` between integral types) is two's-complement
  wraparound modulo `2 ^ bits`; `intmax_t` / `uintmax_t` are the 64-bit
  types, as on the platform targeted by the code;
* the overflow check `impl::will_overflow` and the cast wrappers follow
  the source line by line; an assertion is modelled as a `Bool` that is
  `true` exactly when the asserted condition fails;
* pointers into a class hierarchy carry a null flag and the dynamic type
  of the pointee; `dynamic_cast` yields the pointer unchanged when the
  dynamic type derives from the target and a null pointer otherwise.
-/

/-! ### static_if (src/unnamed/part_010) -/

/-- State of a `static_if` chain: either `impl::static_if_impl<b>`
(no branch matched yet, `b` is the pending predicate) or
`impl::static_if_result` holding the matched lambda. -/
inductive SIf (F : Type) where
  | impl (b : Bool) : SIf F
  | result (f : F) : SIf F

/-- The interface function `static_if`: returns `impl::static_if_impl`
specialized on the predicate's value. -/
def static_if {F : Type} (b : Bool) : SIf F :=
  SIf.impl b

/-- Method `.then`: `static_if_impl<false>` ignores it,
`static_if_impl<true>` produces a `static_if_result`, and a
`static_if_result` ignores everything. -/
def SIf.then_ {F : Type} (s : SIf F) (f : F) : SIf F :=
  match s with
  | .impl false => .impl false
  | .impl true => .result f
  | .result g => .result g

/-- Method `.else_if`: `static_if_impl<false>` restarts `static_if` on the
new predicate, `static_if_impl<true>` and `static_if_result` ignore it. -/
def SIf.else_if {F : Type} (s : SIf F) (p : Bool) : SIf F :=
  match s with
  | .impl false => static_if p
  | .impl true => .impl true
  | .result g => .result g

/-- Method `.else_`: `static_if_impl<false>` produces a `static_if_result`,
`static_if_impl<true>` and `static_if_result` ignore it. -/
def SIf.else_ {F : Type} (s : SIf F) (f : F) : SIf F :=
  match s with
  | .impl false => .result f
  | .impl true => .impl true
  | .result g => .result g

/-- Invoking `operator()` on the finished chain: a `static_if_result`
calls exactly the stored lambda (`some f`); `static_if_impl<false>` has a
no-op `operator()` that calls nothing and returns void (`none`).
(`static_if_impl<true>` declares no `operator()`; it is never invoked in a
well-formed chain, which always passes through `.then`.) -/
def SIf.call {F : Type} : SIf F → Option F
  | .impl _ => none
  | .result f => some f

/-- Appending `.else_if(p).then(f)` steps for each listed branch. -/
def buildBranches {F : Type} (s : SIf F) : List (Bool × F) → SIf F
  | [] => s
  | (p, f) :: rest => buildBranches ((s.else_if p).then_ f) rest

/-- A full chain
`static_if(p0).then(f0).else_if(p1).then(f1)...else_(h)`. -/
def buildChain {F : Type} (p0 : Bool) (f0 : F) (rest : List (Bool × F))
    (h : F) : SIf F :=
  (buildBranches ((static_if p0).then_ f0) rest).else_ h

/-- Reference selection: the then-lambda of the first true predicate, or
the else-lambda when no predicate holds. -/
def firstMatch {F : Type} : List (Bool × F) → F → F
  | [], h => h
  | (p, f) :: rest, h => if p then f else firstMatch rest h

theorem buildBranches_result {F : Type} (g : F) :
    ∀ l : List (Bool × F), buildBranches (SIf.result g) l = SIf.result g := by
  intro l
  induction l with
  | nil => rfl
  | cons pf rest ih =>
      obtain ⟨p, f⟩ := pf
      simpa [buildBranches, SIf.else_if, SIf.then_] using ih

theorem buildBranches_false_else {F : Type} (h : F) :
    ∀ l : List (Bool × F),
      (buildBranches (SIf.impl false) l).else_ h = SIf.result (firstMatch l h) := by
  intro l
  induction l with
  | nil => rfl
  | cons pf rest ih =>
      obtain ⟨p, f⟩ := pf
      cases p with
      | false => simpa [buildBranches, SIf.else_if, static_if, SIf.then_, firstMatch] using ih
      | true =>
          simp [buildBranches, SIf.else_if, static_if, SIf.then_, firstMatch,
            buildBranches_result, SIf.else_]

theorem buildChain_eq_firstMatch {F : Type} (p0 : Bool) (f0 : F)
    (rest : List (Bool × F)) (h : F) :
    buildChain p0 f0 rest h = SIf.result (firstMatch ((p0, f0) :: rest) h) := by
  cases p0 with
  | false =>
      simp [buildChain, static_if, SIf.then_, firstMatch,
        buildBranches_false_else]
  | true =>
      simp [buildChain, static_if, SIf.then_, firstMatch,
        buildBranches_result, SIf.else_]

/-- Claim C1: a `static_if` chain built from `.then(f)`, optional
`.else_if(p).then(g)` continuations and a final `.else_(h)` invokes, on
any call of `operator()`, exactly one of the supplied lambdas: the
then-lambda of the first predicate that holds, or the else-lambda when no
predicate holds — never zero and never more than one (the chain state is a
`static_if_result` holding exactly that lambda, and its `operator()`
forwards to it). -/
theorem static_if_calls_exactly_one {F : Type} (p0 : Bool) (f0 : F)
    (rest : List (Bool × F)) (h : F) :
    SIf.call (buildChain p0 f0 rest h) =
      some (firstMatch ((p0, f0) :: rest) h) := by
  rw [buildChain_eq_firstMatch]
  rfl

/-- Claim C8: a chain whose initial predicate is false, whose `else_if`
predicates are all false, and which has no `.else_` branch, ends in
`static_if_impl<false>`, whose `operator()` is a no-op: no supplied lambda
is called and the call returns void (`none`). -/
theorem static_if_no_else_noop {F : Type} (f0 : F) (rest : List (Bool × F))
    (hall : ∀ pf ∈ rest, pf.1 = false) :
    SIf.call (buildBranches ((static_if false).then_ f0) rest) = none := by
  have key : ∀ l : List (Bool × F), (∀ pf ∈ l, pf.1 = false) →
      buildBranches (SIf.impl false) l = SIf.impl false := by
    intro l
    induction l with
    | nil => intro _; rfl
    | cons pf rest ih =>
        intro hl
        obtain ⟨p, f⟩ := pf
        have hp : p = false := hl (p, f) (List.mem_cons_self _ _)
        subst hp
        simp only [buildBranches, SIf.else_if, static_if, SIf.then_]
        exact ih fun q hq => hl q (List.mem_cons_of_mem _ hq)
  have h0 : (static_if false).then_ f0 = (SIf.impl false : SIf F) := rfl
  rw [h0, key rest hall]
  rfl

theorem static_if_no_else_noop_witness :
    (∀ pf ∈ [(false, (1 : Nat))], pf.1 = false) ∧
      SIf.call (buildBranches ((static_if false).then_ (0 : Nat))
        [(false, 1)]) = none := by
  refine ⟨by decide, static_if_no_else_noop 0 [(false, 1)] (by decide)⟩

theorem firstMatch_eq_find {F : Type} (h : F) :
    ∀ l : List (Bool × F), (∃ pf ∈ l, pf.1 = true) →
      some (firstMatch l h) = (l.find? fun pf => pf.1).map Prod.snd := by
  intro l
  induction l with
  | nil => rintro ⟨pf, hpf, _⟩; cases hpf
  | cons pf rest ih =>
      rintro hex
      obtain ⟨p, f⟩ := pf
      cases p with
      | true => simp [firstMatch, List.find?]
      | false =>
          obtain ⟨q, hq, hq1⟩ := hex
          rcases List.mem_cons.mp hq with hq | hq
          · subst hq; cases hq1
          · simpa [firstMatch, List.find?] using ih ⟨q, hq, hq1⟩

/-- Claim C9: branch selection is first-match. When more than one
predicate of a chain is true, `operator()` invokes only the then-lambda of
the first true predicate (`List.find?`); and once a branch has matched —
the state is a `static_if_result` — every subsequent `.then`, `.else_if`
and `.else_` is ignored and leaves the state unchanged. -/
theorem static_if_first_match {F : Type} (p0 p : Bool) (f0 g f h : F)
    (rest : List (Bool × F))
    (htwo : 2 ≤ (((p0, f0) :: rest).filter fun pf => pf.1).length) :
    SIf.call (buildChain p0 f0 rest h) =
        ((((p0, f0) :: rest).find? fun pf => pf.1).map Prod.snd) ∧
      (SIf.result g).then_ f = SIf.result g ∧
      (SIf.result g).else_if p = SIf.result g ∧
      (SIf.result g).else_ f = SIf.result g := by
  refine ⟨?_, rfl, rfl, rfl⟩
  have hex : ∃ pf ∈ (p0, f0) :: rest, pf.1 = true := by
    by_contra hno
    push_neg at hno
    have hfil : (((p0, f0) :: rest).filter fun pf => pf.1) = [] := by
      apply List.filter_eq_nil_iff.mpr
      intro pf hpf
      simp [hno pf hpf]
    rw [hfil] at htwo
    simp at htwo
  rw [buildChain_eq_firstMatch]
  have := firstMatch_eq_find h ((p0, f0) :: rest) hex
  simpa [SIf.call] using this

theorem static_if_first_match_witness :
    (2 ≤ (([(true, (1 : Nat)), (true, 2)]).filter fun pf => pf.1).length) ∧
      (SIf.call (buildChain true 1 [(true, 2)] 3) =
          ((([(true, (1 : Nat)), (true, 2)]).find? fun pf => pf.1).map Prod.snd) ∧
        (SIf.result 9).then_ 7 = SIf.result 9 ∧
        (SIf.result 9).else_if false = SIf.result 9 ∧
        (SIf.result (9 : Nat)).else_ 7 = SIf.result 9) := by
  refine ⟨by decide, static_if_first_match true false 1 9 7 3 [(true, 2)] (by decide)⟩

/-! ### Integral types and machine casts (src/unnamed/part_002, part_003) -/

/-- A C++ integral type: signedness and bit width.  The code targets a
platform where `intmax_t`/`uintmax_t` are 64 bits, so every integral type
has `1 ≤ bits ≤ 64`. -/
structure IntType where
  signed : Bool
  bits : Nat

/-- Value of `std::numeric_limits<T>::max()`. -/
def IntType.maxVal (t : IntType) : Int :=
  if t.signed then 2 ^ (t.bits - 1) - 1 else 2 ^ t.bits - 1

/-- Value of `std::numeric_limits<T>::min()` (= `lowest()` for integral
types). -/
def IntType.minVal (t : IntType) : Int :=
  if t.signed then -(2 ^ (t.bits - 1)) else 0

/-- The mathematical value `x` is representable in `t`: it lies in
`[lowest, max]` as exact integers. -/
def IntType.canRepr (t : IntType) (x : Int) : Prop :=
  t.minVal ≤ x ∧ x ≤ t.maxVal

instance (t : IntType) (x : Int) : Decidable (t.canRepr x) :=
  inferInstanceAs (Decidable (And _ _))

/-- `intmax_t`: 64-bit signed. -/
def intmaxT : IntType := ⟨true, 64⟩

/-- `uintmax_t`: 64-bit unsigned. -/
def uintmaxT : IntType := ⟨false, 64⟩

/-- `static_cast` between integral types on a two's-complement machine:
reduce modulo `2 ^ bits`, then (for a signed target) shift the upper half
of the residues down. -/
def static_cast (t : IntType) (x : Int) : Int :=
  let m := x % (2 ^ t.bits : Int)
  if t.signed = true ∧ 2 ^ (t.bits - 1) ≤ m then m - 2 ^ t.bits else m

theorem int_emod_neg_eq (x n : Int) (h1 : -n ≤ x) (h2 : x < 0) :
    x % n = x + n := by
  have h4 : x % n = (x + n) % n := by
    conv_rhs => rw [show x + n = x + n * 1 by ring]
    rw [Int.add_mul_emod_self_left]
  rw [h4, Int.emod_eq_of_lt (by linarith) (by linarith)]

theorem static_cast_eq_self (t : IntType) (x : Int) (hb : 1 ≤ t.bits)
    (hx : t.canRepr x) : static_cast t x = x := by
  obtain ⟨s, b⟩ := t
  obtain ⟨hx1, hx2⟩ := hx
  simp only [IntType.canRepr, IntType.minVal, IntType.maxVal] at hx1 hx2
  simp only [static_cast]
  cases s with
  | false =>
      simp only [Bool.false_eq_true, if_false, false_and, ite_false] at hx1 hx2 ⊢
      exact Int.emod_eq_of_lt hx1 (by linarith)
  | true =>
      simp only [if_true, true_and, ite_true] at hx1 hx2 ⊢
      have hsplit : b - 1 + 1 = b := Nat.succ_pred_eq_of_pos hb
      have h2p : (2 : Int) ^ b = 2 ^ (b - 1) * 2 := by
        conv_lhs => rw [← hsplit]
        rw [pow_succ]
      have hHpos : (0 : Int) < 2 ^ (b - 1) := by positivity
      by_cases hx0 : (0 : Int) ≤ x
      · have hm : x % 2 ^ b = x := Int.emod_eq_of_lt hx0 (by linarith)
        rw [hm, if_neg (by intro hc; linarith)]
      · push_neg at hx0
        have hm : x % 2 ^ b = x + 2 ^ b :=
          int_emod_neg_eq x _ (by linarith) hx0
        rw [hm, if_pos (by linarith)]
        ring

theorem two_pow_mono_int (a b : Nat) (h : a ≤ b) : (2 : Int) ^ a ≤ 2 ^ b :=
  pow_le_pow_right₀ (by norm_num) h

theorem intmaxT_min : intmaxT.minVal = -(2 ^ 63) := by
  norm_num [intmaxT, IntType.minVal]

theorem intmaxT_max : intmaxT.maxVal = 2 ^ 63 - 1 := by
  norm_num [intmaxT, IntType.maxVal]

theorem uintmaxT_max : uintmaxT.maxVal = 2 ^ 64 - 1 := by
  norm_num [uintmaxT, IntType.maxVal]

theorem static_cast_intmaxT_eq (x : Int) (h1 : -(2 : Int) ^ 63 ≤ x)
    (h2 : x ≤ 2 ^ 63 - 1) : static_cast intmaxT x = x := by
  apply static_cast_eq_self _ _ (by norm_num [intmaxT])
  exact ⟨by rw [intmaxT_min]; exact h1, by rw [intmaxT_max]; exact h2⟩

theorem static_cast_uintmaxT_eq (x : Int) (h1 : (0 : Int) ≤ x)
    (h2 : x ≤ 2 ^ 64 - 1) : static_cast uintmaxT x = x := by
  apply static_cast_eq_self _ _ (by norm_num [uintmaxT])
  refine ⟨?_, by rw [uintmaxT_max]; exact h2⟩
  show uintmaxT.minVal ≤ x
  norm_num [uintmaxT, IntType.minVal]
  exact h1

namespace impl

/-- The overflow check `impl::will_overflow_impl<TOut, TIn>` for integral
`TOut`, `TIn` (the `std::true_type, std::true_type` overload of
src/unnamed/part_002, lines 208-280), translated line by line. -/
def will_overflow_impl (tout tin : IntType) (x : Int) : Bool :=
  let out_min := tout.minVal
  let out_max := tout.maxVal
  let intmax_max := intmaxT.maxVal
  let x_as_intmax_t := static_cast intmaxT x
  let x_as_uintmax_t := static_cast uintmaxT x
  let out_min_as_intmax_t := static_cast intmaxT out_min
  let out_max_as_intmax_t := static_cast intmaxT out_max
  let intmax_max_as_uintmax_t := static_cast uintmaxT intmax_max
  let out_max_as_uintmax_t := static_cast uintmaxT out_max
  if tout.signed then
    if tin.signed = false ∧ intmax_max_as_uintmax_t < x_as_uintmax_t then
      true
    else if x_as_intmax_t < out_min_as_intmax_t then true
    else if out_max_as_intmax_t < x_as_intmax_t then true
    else false
  else
    if x < 0 then true
    else if out_max_as_uintmax_t < x_as_uintmax_t then true
    else if static_cast tin (static_cast tout x) ≠ x then true
    else false

/-- `impl::will_overflow` (src/unnamed/part_002, lines 282-293): the
dispatch on `std::is_integral` always selects the integral/integral
overload for the integral types modelled here; the body wraps the result
in a redundant `if`. -/
def will_overflow (tout tin : IntType) (x : Int) : Bool :=
  if will_overflow_impl tout tin x then true else false

end impl

theorem will_overflow_eq_impl (tout tin : IntType) (x : Int) :
    impl.will_overflow tout tin x = impl.will_overflow_impl tout tin x := by
  unfold impl.will_overflow
  cases impl.will_overflow_impl tout tin x <;> rfl

/-- `to_num` (src/unnamed/part_003, lines 42-57): asserts
`!impl::will_overflow<TOut, TIn>(x)` and returns `static_cast<TOut>(x)`.
First component: whether the assertion fired; second: the value. -/
def to_num (tout tin : IntType) (x : Int) : Bool × Int :=
  (impl.will_overflow tout tin x, static_cast tout x)

theorem wo_iff_ss (tout tin : IntType) (x : Int)
    (hso : tout.signed = true) (hsi : tin.signed = true)
    (ho1 : 1 ≤ tout.bits) (ho2 : tout.bits ≤ 64)
    (hi1 : 1 ≤ tin.bits) (hi2 : tin.bits ≤ 64)
    (hx : tin.canRepr x) :
    (impl.will_overflow_impl tout tin x = true) ↔ ¬ tout.canRepr x := by
  obtain ⟨hx1, hx2⟩ := hx
  rw [IntType.minVal, hsi, if_pos rfl] at hx1
  rw [IntType.maxVal, hsi, if_pos rfl] at hx2
  have hPi : (2 : Int) ^ (tin.bits - 1) ≤ 2 ^ 63 := two_pow_mono_int _ _ (by omega)
  have hPo : (2 : Int) ^ (tout.bits - 1) ≤ 2 ^ 63 := two_pow_mono_int _ _ (by omega)
  have hPopos : (0 : Int) < 2 ^ (tout.bits - 1) := by positivity
  have hxlow : -(2 : Int) ^ 63 ≤ x := by linarith
  have hxhigh : x ≤ 2 ^ 63 - 1 := by linarith
  have homin : tout.minVal = -(2 ^ (tout.bits - 1)) := by
    rw [IntType.minVal, hso, if_pos rfl]
  have homax : tout.maxVal = 2 ^ (tout.bits - 1) - 1 := by
    rw [IntType.maxVal, hso, if_pos rfl]
  have e1 : static_cast intmaxT x = x := static_cast_intmaxT_eq x hxlow hxhigh
  have e2 : static_cast intmaxT (-(2 : Int) ^ (tout.bits - 1)) =
      -(2 : Int) ^ (tout.bits - 1) := by
    apply static_cast_intmaxT_eq <;> linarith
  have e3 : static_cast intmaxT ((2 : Int) ^ (tout.bits - 1) - 1) =
      (2 : Int) ^ (tout.bits - 1) - 1 := by
    apply static_cast_intmaxT_eq <;> linarith
  simp only [impl.will_overflow_impl, hso, hsi, homin, homax, e1, e2, e3,
    if_true, Bool.true_eq_false, false_and, if_false, IntType.canRepr]
  by_cases h1 : x < -(2 : Int) ^ (tout.bits - 1)
  · rw [if_pos h1]
    exact iff_of_true rfl fun hc => by linarith [hc.1]
  · rw [if_neg h1]
    by_cases h2 : (2 : Int) ^ (tout.bits - 1) - 1 < x
    · rw [if_pos h2]
      exact iff_of_true rfl fun hc => by linarith [hc.2]
    · rw [if_neg h2]
      exact iff_of_false (by simp) (not_not_intro ⟨by linarith, by linarith⟩)

theorem wo_iff_su (tout tin : IntType) (x : Int)
    (hso : tout.signed = true) (hsi : tin.signed = false)
    (ho1 : 1 ≤ tout.bits) (ho2 : tout.bits ≤ 64)
    (hi1 : 1 ≤ tin.bits) (hi2 : tin.bits ≤ 64)
    (hx : tin.canRepr x) :
    (impl.will_overflow_impl tout tin x = true) ↔ ¬ tout.canRepr x := by
  obtain ⟨hx1, hx2⟩ := hx
  rw [IntType.minVal, hsi] at hx1
  rw [IntType.maxVal, hsi] at hx2
  simp only [Bool.false_eq_true, if_false] at hx1 hx2
  have hNi : (2 : Int) ^ tin.bits ≤ 2 ^ 64 := two_pow_mono_int _ _ hi2
  have hPo : (2 : Int) ^ (tout.bits - 1) ≤ 2 ^ 63 := two_pow_mono_int _ _ (by omega)
  have hPopos : (0 : Int) < 2 ^ (tout.bits - 1) := by positivity
  have homin : tout.minVal = -(2 ^ (tout.bits - 1)) := by
    rw [IntType.minVal, hso, if_pos rfl]
  have homax : tout.maxVal = 2 ^ (tout.bits - 1) - 1 := by
    rw [IntType.maxVal, hso, if_pos rfl]
  have eu : static_cast uintmaxT x = x :=
    static_cast_uintmaxT_eq x hx1 (by linarith)
  have em : static_cast uintmaxT ((2 : Int) ^ 63 - 1) = (2 : Int) ^ 63 - 1 := by
    apply static_cast_uintmaxT_eq <;> norm_num
  have e2 : static_cast intmaxT (-(2 : Int) ^ (tout.bits - 1)) =
      -(2 : Int) ^ (tout.bits - 1) := by
    apply static_cast_intmaxT_eq <;> linarith
  have e3 : static_cast intmaxT ((2 : Int) ^ (tout.bits - 1) - 1) =
      (2 : Int) ^ (tout.bits - 1) - 1 := by
    apply static_cast_intmaxT_eq <;> linarith
  simp only [impl.will_overflow_impl, hso, hsi, intmaxT_max, homin, homax,
    eu, em, e2, e3, if_true, eq_self_iff_true, true_and, IntType.canRepr]
  by_cases h1 : (2 : Int) ^ 63 - 1 < x
  · rw [if_pos h1]
    exact iff_of_true rfl fun hc => by linarith [hc.2]
  · rw [if_neg h1]
    have e1 : static_cast intmaxT x = x :=
      static_cast_intmaxT_eq x (by linarith) (by linarith)
    rw [e1]
    by_cases h2 : x < -(2 : Int) ^ (tout.bits - 1)
    · rw [if_pos h2]
      exact iff_of_true rfl fun hc => by linarith [hc.1]
    · rw [if_neg h2]
      by_cases h3 : (2 : Int) ^ (tout.bits - 1) - 1 < x
      · rw [if_pos h3]
        exact iff_of_true rfl fun hc => by linarith [hc.2]
      · rw [if_neg h3]
        exact iff_of_false (by simp) (not_not_intro ⟨by linarith, by linarith⟩)

theorem wo_iff_u (tout tin : IntType) (x : Int)
    (hso : tout.signed = false)
    (ho1 : 1 ≤ tout.bits) (ho2 : tout.bits ≤ 64)
    (hi1 : 1 ≤ tin.bits) (hi2 : tin.bits ≤ 64)
    (hx : tin.canRepr x) :
    (impl.will_overflow_impl tout tin x = true) ↔ ¬ tout.canRepr x := by
  obtain ⟨hx1, hx2⟩ := hx
  have hxhigh : x ≤ 2 ^ 64 - 1 := by
    cases hsi : tin.signed with
    | false =>
        rw [IntType.maxVal, hsi] at hx2
        simp only [Bool.false_eq_true, if_false] at hx2
        have := two_pow_mono_int tin.bits 64 hi2
        linarith
    | true =>
        rw [IntType.maxVal, hsi, if_pos rfl] at hx2
        have h63 : (2 : Int) ^ (tin.bits - 1) ≤ 2 ^ 63 :=
          two_pow_mono_int _ _ (by omega)
        have : (2 : Int) ^ 63 ≤ 2 ^ 64 := by norm_num
        linarith
  have homin : tout.minVal = 0 := by
    rw [IntType.minVal, hso]
    simp
  have homax : tout.maxVal = 2 ^ tout.bits - 1 := by
    rw [IntType.maxVal, hso]
    simp
  have hNo : (2 : Int) ^ tout.bits ≤ 2 ^ 64 := two_pow_mono_int _ _ ho2
  have hNopos : (0 : Int) < 2 ^ tout.bits := by positivity
  simp only [impl.will_overflow_impl, hso, Bool.false_eq_true, if_false,
    IntType.canRepr, homin, homax]
  by_cases h1 : x < 0
  · rw [if_pos h1]
    exact iff_of_true rfl fun hc => by linarith [hc.1]
  · rw [if_neg h1]
    push_neg at h1
    have eu : static_cast uintmaxT x = x := static_cast_uintmaxT_eq x h1 hxhigh
    have eo : static_cast uintmaxT ((2 : Int) ^ tout.bits - 1) =
        (2 : Int) ^ tout.bits - 1 := by
      apply static_cast_uintmaxT_eq <;> linarith
    rw [eu, eo]
    by_cases h2 : (2 : Int) ^ tout.bits - 1 < x
    · rw [if_pos h2]
      exact iff_of_true rfl fun hc => by linarith [hc.2]
    · rw [if_neg h2]
      have et : static_cast tout x = x := by
        apply static_cast_eq_self _ _ ho1
        exact ⟨by rw [homin]; exact h1, by rw [homax]; linarith⟩
      have es : static_cast tin (static_cast tout x) = x := by
        rw [et]
        exact static_cast_eq_self _ _ hi1 ⟨hx1, hx2⟩
      rw [if_neg (by rw [es]; exact fun hc => hc rfl)]
      exact iff_of_false (by simp) (not_not_intro ⟨by linarith, by linarith⟩)

theorem will_overflow_iff_not_canRepr (tout tin : IntType) (x : Int)
    (ho1 : 1 ≤ tout.bits) (ho2 : tout.bits ≤ 64)
    (hi1 : 1 ≤ tin.bits) (hi2 : tin.bits ≤ 64)
    (hx : tin.canRepr x) :
    (impl.will_overflow tout tin x = true) ↔ ¬ tout.canRepr x := by
  rw [will_overflow_eq_impl]
  cases hso : tout.signed with
  | false => exact wo_iff_u tout tin x hso ho1 ho2 hi1 hi2 hx
  | true =>
      cases hsi : tin.signed with
      | false => exact wo_iff_su tout tin x hso hsi ho1 ho2 hi1 hi2 hx
      | true => exact wo_iff_ss tout tin x hso hsi ho1 ho2 hi1 hi2 hx

/-- `signed char`. -/
def scharT : IntType := ⟨true, 8⟩

/-- `unsigned char`. -/
def ucharT : IntType := ⟨false, 8⟩

/-- `int` (32-bit). -/
def intT : IntType := ⟨true, 32⟩

/-- Claim C2: for every pair of integral types `TOut`, `TIn` and every
value `x` of `TIn`, `to_num<TOut>(x)` fails its assertion if and only if
the mathematical value of `x` is not representable in `TOut` (lies outside
`[numeric_limits<TOut>::lowest(), numeric_limits<TOut>::max()]` as exact
integers); when `x` is representable the assertion passes. -/
theorem to_num_assert_iff_overflow (tout tin : IntType) (x : Int)
    (ho1 : 1 ≤ tout.bits) (ho2 : tout.bits ≤ 64)
    (hi1 : 1 ≤ tin.bits) (hi2 : tin.bits ≤ 64)
    (hx : tin.canRepr x) :
    (to_num tout tin x).1 = true ↔ ¬ tout.canRepr x :=
  will_overflow_iff_not_canRepr tout tin x ho1 ho2 hi1 hi2 hx

theorem to_num_assert_iff_overflow_witness :
    scharT.canRepr (-1) ∧
      ((to_num ucharT scharT (-1)).1 = true ↔ ¬ ucharT.canRepr (-1)) :=
  ⟨by decide, to_num_assert_iff_overflow ucharT scharT (-1) (by decide)
    (by decide) (by decide) (by decide) (by decide)⟩

/-- Claim C4: round-trip preservation. For all integral `TOut`, `TIn` and
every `x` of `TIn` on which `to_num<TOut>(x)` does not fire its assertion,
converting the result back to the source type restores the original
value: `static_cast<TIn>(to_num<TOut>(x)) == x`. -/
theorem to_num_round_trip (tout tin : IntType) (x : Int)
    (ho1 : 1 ≤ tout.bits) (ho2 : tout.bits ≤ 64)
    (hi1 : 1 ≤ tin.bits) (hi2 : tin.bits ≤ 64)
    (hx : tin.canRepr x)
    (hnof : (to_num tout tin x).1 = false) :
    static_cast tin ((to_num tout tin x).2) = x := by
  have hiff := will_overflow_iff_not_canRepr tout tin x ho1 ho2 hi1 hi2 hx
  have hrep : tout.canRepr x := by
    by_contra hc
    have hfired : (to_num tout tin x).1 = true := hiff.mpr hc
    rw [hnof] at hfired
    simp at hfired
  have h2 : (to_num tout tin x).2 = x := static_cast_eq_self tout x ho1 hrep
  rw [h2]
  exact static_cast_eq_self tin x hi1 hx

theorem to_num_round_trip_witness :
    scharT.canRepr 5 ∧ (to_num intT scharT 5).1 = false ∧
      static_cast scharT ((to_num intT scharT 5).2) = 5 :=
  ⟨by decide, by decide, to_num_round_trip intT scharT 5 (by decide)
    (by decide) (by decide) (by decide) (by decide) (by decide)⟩

/-- The `to_num` of src/unnamed/part_002 (lines 297-306): its assertion is
`FAKE_ASSERT(!impl::will_overflow<TOut, TIn>(x))`, and `FAKE_ASSERT`
(lines 109-121) writes the global `bool assert_fired` when the asserted
condition fails.  The global flag is made explicit: the last argument is
`assert_fired` before the call, the second component its value after. -/
def to_num_p002 (tout tin : IntType) (x : Int) (assert_fired : Bool) :
    Int × Bool :=
  (static_cast tout x,
    if impl.will_overflow tout tin x then true else assert_fired)

/-- Claim C7 counterexample: the call `to_num<unsigned char>((char)-1)` of
src/unnamed/part_002 writes the persistent shared flag `assert_fired`
(it flips it from `false` to `true`), so not every cast call is free of
reads and writes of persistent mutable state shared across calls. -/
theorem to_num_p002_writes_state :
    (to_num_p002 ucharT scharT (-1) false).2 ≠ false := by decide

/-- Claim C7 (amended): every cast's returned value is deterministic — it
is determined by the arguments alone, and in particular is independent of
the shared `assert_fired` flag; but the part_002 `to_num` is not stateless:
it writes the global `assert_fired` flag, leaving it at
`old value OR will_overflow`, so a call on an overflowing input sets the
shared flag (the flag is never read by the casts themselves, only
written). -/
theorem to_num_p002_deterministic (tout tin : IntType) (x : Int)
    (s1 s2 : Bool) :
    (to_num_p002 tout tin x s1).1 = (to_num_p002 tout tin x s2).1 ∧
      (to_num_p002 tout tin x s1).1 = (to_num tout tin x).2 ∧
      (to_num_p002 tout tin x s1).2 =
        (s1 || impl.will_overflow tout tin x) := by
  refine ⟨rfl, rfl, ?_⟩
  show (if impl.will_overflow tout tin x then true else s1) = _
  cases h : impl.will_overflow tout tin x <;> cases s1 <;> simp

/-! ### Enum casts (src/0_MeaningfulCasts/p2.cpp) -/

/-- An enum type, characterized by its underlying integral type; an enum
value is modelled by its underlying integer value. -/
structure EnumType where
  underlying : IntType

/-- `from_enum<TOut>` (p2.cpp lines 35-49):
`to_num<TOut>(static_cast<underlying>(x))`, where
`static_cast<underlying>` of an enum value yields its underlying value. -/
def from_enum (tout : IntType) (ein : EnumType) (x : Int) : Bool × Int :=
  to_num tout ein.underlying x

/-- Single-argument `from_enum` (p2.cpp lines 53-57): converts an enum to
its own underlying type. -/
def from_enum_default (ein : EnumType) (x : Int) : Bool × Int :=
  from_enum ein.underlying ein x

/-- `to_enum`, number-to-enum overload (p2.cpp lines 66-72):
`static_cast<TOut>(to_num<underlying_type_t<TOut>>(x))`; the resulting
enum value is the `to_num` result. -/
def to_enum_num (eout : EnumType) (tin : IntType) (x : Int) : Bool × Int :=
  to_num eout.underlying tin x

/-- `to_enum`, enum-to-enum overload (p2.cpp lines 75-81):
`to_enum<TOut>(from_enum(x))`; the flag records whether any of the two
chained assertions fired. -/
def to_enum_enum (eout ein : EnumType) (x : Int) : Bool × Int :=
  let r1 := from_enum_default ein x
  let r2 := to_enum_num eout ein.underlying r1.2
  (r1.1 || r2.1, r2.2)

theorem will_overflow_false_of_canRepr (tout tin : IntType) (x : Int)
    (ho1 : 1 ≤ tout.bits) (ho2 : tout.bits ≤ 64)
    (hi1 : 1 ≤ tin.bits) (hi2 : tin.bits ≤ 64)
    (hx : tin.canRepr x) (hout : tout.canRepr x) :
    impl.will_overflow tout tin x = false := by
  have hiff := will_overflow_iff_not_canRepr tout tin x ho1 ho2 hi1 hi2 hx
  cases h : impl.will_overflow tout tin x with
  | false => rfl
  | true => exact absurd hout (hiff.mp h)

/-- Claim C6: enum-to-enum conversion preserves the underlying value. For
enums `E1`, `E2` and every value `x` of `E1` whose underlying value is
representable in `E2`'s underlying type, no assertion fires,
`from_enum(to_enum<E2>(x))` equals `from_enum(x)` as exact integers, and
the conversion goes through both underlying types with the overflow check
applied (`to_enum<E2>(x) = to_enum<E2>(from_enum(x))`), returning `x`
itself. -/
theorem to_enum_preserves_value (eout ein : EnumType) (x : Int)
    (ho1 : 1 ≤ eout.underlying.bits) (ho2 : eout.underlying.bits ≤ 64)
    (hi1 : 1 ≤ ein.underlying.bits) (hi2 : ein.underlying.bits ≤ 64)
    (hx : ein.underlying.canRepr x) (hout : eout.underlying.canRepr x) :
    (to_enum_enum eout ein x).1 = false ∧
      (from_enum_default eout ((to_enum_enum eout ein x).2)).2 =
        (from_enum_default ein x).2 ∧
      (to_enum_enum eout ein x).2 = x := by
  have e_in : static_cast ein.underlying x = x :=
    static_cast_eq_self _ _ hi1 hx
  have e_out : static_cast eout.underlying x = x :=
    static_cast_eq_self _ _ ho1 hout
  have hw1 : impl.will_overflow ein.underlying ein.underlying x = false :=
    will_overflow_false_of_canRepr _ _ _ hi1 hi2 hi1 hi2 hx hx
  have hw2 : impl.will_overflow eout.underlying ein.underlying x = false :=
    will_overflow_false_of_canRepr _ _ _ ho1 ho2 hi1 hi2 hx hout
  refine ⟨?_, ?_, ?_⟩ <;>
    simp only [to_enum_enum, to_enum_num, from_enum_default, from_enum,
      to_num, e_in, e_out, hw1, hw2, Bool.or_self]

theorem to_enum_preserves_value_witness :
    (EnumType.mk scharT).underlying.canRepr (-1) ∧
      (EnumType.mk intT).underlying.canRepr (-1) ∧
      ((to_enum_enum ⟨intT⟩ ⟨scharT⟩ (-1)).1 = false ∧
        (from_enum_default ⟨intT⟩ ((to_enum_enum ⟨intT⟩ ⟨scharT⟩ (-1)).2)).2 =
          (from_enum_default ⟨scharT⟩ (-1)).2 ∧
        (to_enum_enum ⟨intT⟩ ⟨scharT⟩ (-1)).2 = -1) :=
  ⟨by decide, by decide, to_enum_preserves_value ⟨intT⟩ ⟨scharT⟩ (-1)
    (by decide) (by decide) (by decide) (by decide) (by decide) (by decide)⟩

/-! ### Hierarchy casts (src/0_MeaningfulCasts/p4.cpp, src/unnamed/part_005) -/

/-- A class hierarchy: `isBase b d` states that `b` is `d` itself or a
base class of `d` (`std::is_base_of`). -/
structure Hierarchy where
  isBase : Nat → Nat → Bool

/-- A pointer into the hierarchy: a null flag plus the dynamic type of
the pointee (meaningless when null).  `static_cast` between pointer types
of the same single object leaves it unchanged. -/
structure Ptr where
  null : Bool
  dynType : Nat

/-- Pointer equality after the implicit conversions of a comparison: all
null pointers compare equal; non-null pointers compare equal when they
denote the same object. -/
def ptr_equal (a b : Ptr) : Bool :=
  (a.null && b.null) || (!a.null && !b.null && a.dynType == b.dynType)

/-- C++ `dynamic_cast<Target*>(p)`: a null pointer stays null; a non-null
pointer is returned (pointing at the same object) when the pointee's
dynamic type is the target or derives from it, and the result is the null
pointer otherwise. -/
def dynamic_cast (H : Hierarchy) (target : Nat) (p : Ptr) : Ptr :=
  if p.null then p
  else if H.isBase target p.dynType then p
  else ⟨true, target⟩

/-- Result of a non-polymorphic hierarchy cast: whether the
`assert(ptr != nullptr)` sanity check fired, and the returned pointer. -/
structure HCastResult where
  nullAssert : Bool
  res : Ptr

namespace impl

/-- `impl::hierarchy_cast` (p4.cpp lines 39-49): a compile-time
`static_assert(is_base_of)`, the runtime check `assert(ptr != nullptr)`
(fires exactly when the pointer is null) and `static_cast<TOut>(ptr)`,
which returns the same pointer. -/
def hierarchy_cast (p : Ptr) : HCastResult :=
  ⟨p.null, p⟩

/-- `impl::polymorphic_cast` (src/unnamed/part_005 lines 12-24): identical
body — `assert(ptr != nullptr)` then `static_cast<TOut>(ptr)`. -/
def polymorphic_cast (p : Ptr) : HCastResult :=
  ⟨p.null, p⟩

/-- `impl::to_derived_impl` (p4.cpp lines 51-56). -/
def to_derived_impl (p : Ptr) : HCastResult :=
  hierarchy_cast p

/-- `impl::to_base_impl` (p4.cpp lines 58-63). -/
def to_base_impl (p : Ptr) : HCastResult :=
  hierarchy_cast p

end impl

/-- `to_derived` (p4.cpp lines 69-74): non-polymorphic, no dynamic type
check of any kind. -/
def to_derived (p : Ptr) : HCastResult :=
  impl.to_derived_impl p

/-- `to_base` (p4.cpp lines 76-81): non-polymorphic, no dynamic type
check of any kind. -/
def to_base (p : Ptr) : HCastResult :=
  impl.to_base_impl p

/-- Result of a polymorphic hierarchy cast: whether the null sanity check
fired, whether the `assert(dynamic_cast<decltype(res)>(p) == p)` check
fired, and the returned pointer. -/
structure PCastResult where
  nullAssert : Bool
  dynAssert : Bool
  res : Ptr

/-- `to_polymorphic_derived` (p4.cpp lines 95-104): runs
`to_derived_impl`, then asserts
`dynamic_cast<decltype(res)>(base) == base`. -/
def to_polymorphic_derived (H : Hierarchy) (td : Nat) (p : Ptr) : PCastResult :=
  let r := impl.to_derived_impl p
  ⟨r.nullAssert, !(ptr_equal (dynamic_cast H td p) p), r.res⟩

/-- `to_polymorphic_base` (p4.cpp lines 106-115): runs `to_base_impl`,
then asserts `dynamic_cast<decltype(res)>(derived) == derived`. -/
def to_polymorphic_base (H : Hierarchy) (tb : Nat) (p : Ptr) : PCastResult :=
  let r := impl.to_base_impl p
  ⟨r.nullAssert, !(ptr_equal (dynamic_cast H tb p) p), r.res⟩

/-- Claim C5: for every non-null pointer `p`, `to_polymorphic_derived`
fails its dynamic assertion if and only if `dynamic_cast` to the target
pointer type does not yield `p` back — equivalently, iff the pointee's
dynamic type is not the target derived type or a class derived from it;
symmetrically for `to_polymorphic_base`.  The non-polymorphic `to_base`
and `to_derived` perform no dynamic type check at all: their entire
behaviour is the null sanity check plus returning the pointer. -/
theorem polymorphic_assert_iff_dyncheck (H : Hierarchy) (td tb : Nat)
    (p : Ptr) (hp : p.null = false) :
    ((to_polymorphic_derived H td p).dynAssert = true ↔
        ptr_equal (dynamic_cast H td p) p = false) ∧
      ((to_polymorphic_derived H td p).dynAssert = true ↔
        H.isBase td p.dynType = false) ∧
      ((to_polymorphic_base H tb p).dynAssert = true ↔
        H.isBase tb p.dynType = false) ∧
      to_derived p = ⟨p.null, p⟩ ∧ to_base p = ⟨p.null, p⟩ := by
  obtain ⟨pn, pd⟩ := p
  simp only at hp
  subst hp
  refine ⟨?_, ?_, ?_, rfl, rfl⟩
  · cases hb : H.isBase td pd <;>
      simp [to_polymorphic_derived, impl.to_derived_impl,
        impl.hierarchy_cast, dynamic_cast, ptr_equal, hb]
  · cases hb : H.isBase td pd <;>
      simp [to_polymorphic_derived, impl.to_derived_impl,
        impl.hierarchy_cast, dynamic_cast, ptr_equal, hb]
  · cases hb : H.isBase tb pd <;>
      simp [to_polymorphic_base, impl.to_base_impl,
        impl.hierarchy_cast, dynamic_cast, ptr_equal, hb]

theorem polymorphic_assert_iff_dyncheck_witness :
    (Ptr.mk false 1).null = false ∧
      (((to_polymorphic_derived (Hierarchy.mk fun b d => decide (b ≤ d)) 0
            ⟨false, 1⟩).dynAssert = true ↔
          ptr_equal (dynamic_cast (Hierarchy.mk fun b d => decide (b ≤ d)) 0
            ⟨false, 1⟩) ⟨false, 1⟩ = false) ∧
        ((to_polymorphic_derived (Hierarchy.mk fun b d => decide (b ≤ d)) 0
            ⟨false, 1⟩).dynAssert = true ↔
          (Hierarchy.mk fun b d => decide (b ≤ d)).isBase 0 1 = false) ∧
        ((to_polymorphic_base (Hierarchy.mk fun b d => decide (b ≤ d)) 2
            ⟨false, 1⟩).dynAssert = true ↔
          (Hierarchy.mk fun b d => decide (b ≤ d)).isBase 2 1 = false) ∧
        to_derived ⟨false, 1⟩ = ⟨(Ptr.mk false 1).null, ⟨false, 1⟩⟩ ∧
        to_base ⟨false, 1⟩ = ⟨(Ptr.mk false 1).null, ⟨false, 1⟩⟩) :=
  ⟨rfl, polymorphic_assert_iff_dyncheck (Hierarchy.mk fun b d => decide (b ≤ d))
    0 2 ⟨false, 1⟩ rfl⟩

/-- Claim C10: every pointer hierarchy cast requires a non-null input:
for `to_base`, `to_derived`, `to_polymorphic_base`,
`to_polymorphic_derived` (and part_005's `impl::polymorphic_cast`), the
`assert(ptr != nullptr)` check fires exactly when the pointer is null —
so it fires on every null input, and under the precondition that the
pointer is non-null that error branch is unreachable. -/
theorem hierarchy_casts_require_nonnull (H : Hierarchy) (td tb : Nat)
    (p : Ptr) :
    (to_derived p).nullAssert = p.null ∧
      (to_base p).nullAssert = p.null ∧
      (impl.polymorphic_cast p).nullAssert = p.null ∧
      (to_polymorphic_derived H td p).nullAssert = p.null ∧
      (to_polymorphic_base H tb p).nullAssert = p.null :=
  ⟨rfl, rfl, rfl, rfl, rfl⟩

/-- Claim C3: every cast wrapper refines the corresponding native cast.
`to_num<TOut>(x)` returns exactly `static_cast<TOut>(x)`; `from_enum` and
`to_enum` return exactly the corresponding `static_cast` through the
enum's underlying type; `to_base`/`to_derived` return exactly the
`static_cast` of the pointer (the same object).  The wrappers add checks
but never change the returned value (with `FAKE_ASSERT`/`assert`, the
value expression is the native cast itself). -/
theorem casts_refine_native (tout tin : IntType) (ein eout : EnumType)
    (p : Ptr) (x : Int)
    (hi1 : 1 ≤ ein.underlying.bits) (hx : ein.underlying.canRepr x) :
    (to_num tout tin x).2 = static_cast tout x ∧
      (from_enum tout ein x).2 = static_cast tout x ∧
      (from_enum_default ein x).2 = static_cast ein.underlying x ∧
      (to_enum_num eout tin x).2 = static_cast eout.underlying x ∧
      (to_enum_enum eout ein x).2 = static_cast eout.underlying x ∧
      (to_derived p).res = p ∧ (to_base p).res = p := by
  refine ⟨rfl, rfl, rfl, rfl, ?_, rfl, rfl⟩
  have e_in : static_cast ein.underlying x = x :=
    static_cast_eq_self _ _ hi1 hx
  show static_cast eout.underlying (static_cast ein.underlying x) =
    static_cast eout.underlying x
  rw [e_in]

theorem casts_refine_native_witness :
    (1 ≤ (EnumType.mk scharT).underlying.bits) ∧
      (EnumType.mk scharT).underlying.canRepr 3 ∧
      ((to_num intT scharT 3).2 = static_cast intT 3 ∧
        (from_enum intT ⟨scharT⟩ 3).2 = static_cast intT 3 ∧
        (from_enum_default ⟨scharT⟩ 3).2 = static_cast scharT 3 ∧
        (to_enum_num ⟨intT⟩ scharT 3).2 = static_cast intT 3 ∧
        (to_enum_enum ⟨intT⟩ ⟨scharT⟩ 3).2 = static_cast intT 3 ∧
        (to_derived ⟨false, 0⟩).res = ⟨false, 0⟩ ∧
        (to_base ⟨false, 0⟩).res = ⟨false, 0⟩) :=
  ⟨by decide, by decide,
    casts_refine_native intT scharT ⟨scharT⟩ ⟨intT⟩ ⟨false, 0⟩ 3
      (by decide) (by decide)⟩
